import Mathlib

/-!
Verification of the prerendering pipeline of `vite-plugin-ssr`
(`node/prerender.ts`), via a shallow embedding of the relevant code.

JavaScript runtime values are modelled by `JSValue`; plain objects are
association lists in insertion order (`Record`).  Fallible code
(`assertUsage` / internal `assert` / re-thrown hook errors) is modelled with
`Except Err`.  The cooperative single-threaded scheduling of the original
code is modelled by running asynchronous units sequentially in submission
order; `await Promise.all` boundaries become sequential phase barriers.
-/

/-- A JavaScript runtime value.  `func ret` models a callable that, when
invoked with no arguments, returns `ret` (hooks in the pipeline are invoked
exactly this way). -/
inductive JSValue where
  | null
  | undefined
  | bool (b : Bool)
  | num (n : Int)
  | str (s : String)
  | arr (elems : List JSValue)
  | obj (fields : List (String × JSValue))
  | func (ret : JSValue)

/-- A plain JavaScript object: key/value pairs in insertion order. -/
abbrev Record := List (String × JSValue)

/-- Lookup of a key in a record (first occurrence). -/
def getKey : Record → String → Option JSValue
  | [], _ => none
  | (k, v) :: rest, key => if k = key then some v else getKey rest key

/-- Whether a record carries a key. -/
def hasKey (r : Record) (key : String) : Bool :=
  (getKey r key).isSome

/-- Assignment of one key, as JavaScript property assignment: the value is
replaced in place when the key is present, appended otherwise. -/
def setKey : Record → String → JSValue → Record
  | [], key, v => [(key, v)]
  | (k, w) :: rest, key, v =>
      if k = key then (key, v) :: rest else (k, w) :: setKey rest key v

/-- `Object.assign(target, source)` / object-spread semantics: the keys of
`source` are assigned into `target` left to right. -/
def mergeRecord (target source : Record) : Record :=
  source.foldl (fun acc p => setKey acc p.1 p.2) target

/-- First-defined choice on `Option`. -/
def optOr {α : Type} : Option α → Option α → Option α
  | some a, _ => some a
  | none, b => b

/-- `url.startsWith(pre)`, computed on the character list so that concrete
instances reduce definitionally. -/
def strStartsWith (s pre : String) : Bool :=
  pre.data.isPrefixOf s.data

/-- JavaScript truthiness. -/
def truthy : JSValue → Bool
  | .null => false
  | .undefined => false
  | .bool b => b
  | .num n => n != 0
  | .str s => s != ""
  | .arr _ => true
  | .obj _ => true
  | .func _ => true

/-- Modelled from the spec: `isCallable` (the `utils/isCallable`
implementation is not under `src/`); a value is callable exactly when it is
a function. -/
def isCallable : JSValue → Bool
  | .func _ => true
  | _ => false

/-- Modelled from the spec: `isPlainObject` (the `utils/isPlainObject`
implementation is not under `src/`); per the spec a valid element must be
"a plain record", i.e. a plain key/value object, not an array and not a
primitive. -/
def isPlainObject : JSValue → Bool
  | .obj _ => true
  | _ => false

/-- Modelled from the spec: the check applied to a `pageContext` value after
the absent case has been defaulted to `null` — per the spec, "if present,
`pageContext` must be a plain key/value record (not an array, not a
primitive)" and an absent `pageContext` "defaults to `null`", so the
canonicalized value must be `null` or a plain record. -/
def pageContextShapeOk : JSValue → Bool
  | .null => true
  | .obj _ => true
  | _ => false

/-- Errors surfaced by the pipeline: fatal usage errors (`assertUsage`),
internal assertion failures (`assert`), and wrapped upstream hook faults
(`throwPrerenderError`). -/
inductive Err where
  | usage (msg : String)
  | assertFail (msg : String)
  | upstream (err : JSValue)

/-- One canonicalized result pair of a `prerender()` hook. -/
structure PrerenderPair where
  url : String
  pageContext : JSValue

def errMsg1 (file : String) : String :=
  "The prerender() hook defined in " ++ file ++ " returned an invalid value"

def errMsg2 : String :=
  "Make sure your prerender() hook returns an object \x7b url, pageContext \x7d or an array of such objects."

def invalidPageContextMsg (file : String) : String :=
  "The prerender() hook exported by " ++ file ++
    " returned an invalid pageContext value: make sure pageContext is a plain JavaScript object."

/-- The inner `normalize()` of `normalizePrerenderResult` (prerender.ts,
lines 511-538).  Because the original mutates its argument (it writes
`pageContext = null` into a record element lacking the key), the embedding
returns both the post-state of the element and the produced pair. -/
def normalizeElement (file : String) (el : JSValue) : Except Err (JSValue × PrerenderPair) :=
  match el with
  | .str s => .ok (.str s, ⟨s, .null⟩)
  | el =>
    if ¬ isPlainObject el then .error (.usage (errMsg1 file ++ ". " ++ errMsg2)) else
    match el with
    | .obj fields =>
      if ¬ hasKey fields "url" then
        .error (.usage (errMsg1 file ++ ": url is missing. " ++ errMsg2))
      else
        match getKey fields "url" with
        | some (.str u) =>
          if ¬ strStartsWith u "/" then
            .error (.usage (errMsg1 file ++ ": the url with value " ++ u ++
              " does not start with /. Make sure each URL starts with /."))
          else
            match fields.find? (fun p => ¬ (p.1 = "url" ∨ p.1 = "pageContext")) with
            | some p =>
              .error (.usage (errMsg1 file ++ ": unexpected object key " ++ p.1 ++ " " ++ errMsg2))
            | none =>
              let fields2 := if hasKey fields "pageContext" then fields
                             else fields ++ [("pageContext", .null)]
              match getKey fields2 "pageContext" with
              | some pc =>
                if pageContextShapeOk pc then .ok (.obj fields2, ⟨u, pc⟩)
                else .error (.usage (invalidPageContextMsg file))
              | none => .error (.assertFail "pageContext")
        | _ =>
          .error (.usage (errMsg1 file ++ ": url should be a string."))
    | _ => .error (.usage (errMsg1 file ++ ". " ++ errMsg2))

/-- Elementwise normalization of an array result (the `.map(normalize)`
branch); the first failing element aborts. -/
def normalizeList (file : String) : List JSValue → Except Err (List JSValue × List PrerenderPair)
  | [] => .ok ([], [])
  | el :: rest => do
      let (post, pr) ← normalizeElement file el
      let (posts, prs) ← normalizeList file rest
      .ok (post :: posts, pr :: prs)

/-- `normalizePrerenderResult` (prerender.ts, lines 501-539).  Returns the
post-state of the raw hook result together with the canonicalized pairs. -/
def normalizePrerenderResult (res : JSValue) (file : String) :
    Except Err (JSValue × List PrerenderPair) :=
  match res with
  | .arr els => do
      let (posts, prs) ← normalizeList file els
      .ok (.arr posts, prs)
  | other => do
      let (post, pr) ← normalizeElement file other
      .ok (post, [pr])

/-- One entry of the `doNotPrerenderList`: a page whose `.page.server` file
exports a truthy `doNotPrerender`. -/
structure DoNotPrerenderEntry where
  pageId : String
  pageServerFilePath : String
deriving DecidableEq

/-- The fields of `prerenderPageIds[pageId]` read by the coverage validator:
the rendered URL and the provenance (`_prerenderSourceFile`). -/
structure PrerenderedInfo where
  url : String
  prerenderSourceFile : Option String
deriving DecidableEq

/-- A loaded page file descriptor (the parts of `PageFile` the pipeline
reads); `fileExports` is the module export record after `loadFile()`. -/
structure PageFile where
  pageId : String
  filePath : String
  fileType : String
  isDefaultPageFile : Bool
  fileExports : Record

/-- Reading an export: `p.fileExports?.name` (an absent key reads as
`undefined`). -/
def exportOf (p : PageFile) (name : String) : JSValue :=
  (getKey p.fileExports name).getD .undefined

/-- The `url` property of a page context, when it is a string. -/
def urlOf (ctx : Record) : Option String :=
  match getKey ctx "url" with
  | some (.str s) => some s
  | _ => none

/-- The `_prerenderSourceFile` property of a page context, when it is a
string (`null` and absent read as `none`). -/
def srcOf (ctx : Record) : Option String :=
  match getKey ctx "_prerenderSourceFile" with
  | some (.str s) => some s
  | _ => none

/-- `globalContext.prerenderPageContexts.find((pageContext) => pageContext.url === url)` -/
def findCtx (store : List Record) (url : String) : Option Record :=
  store.find? (fun ctx => urlOf ctx == some url)

/-- The conditional merge
`if (pageContext) objectAssign(pageContextFound, \x7b _pageContextAlreadyProvidedByPrerenderHook: true, ...pageContext \x7d)`
(prerender.ts, lines 206-211). -/
def applyPageContext (ctx : Record) (pageContext : JSValue) : Record :=
  match pageContext with
  | .obj c => mergeRecord ctx (("_pageContextAlreadyProvidedByPrerenderHook", .bool true) :: c)
  | _ => ctx

/-- The body of the `result.forEach` of `callPrerenderHooks` (prerender.ts,
lines 191-212): find-or-create the RenderContext for the URL of the pair and
merge the contributed `pageContext` into it. -/
def applyPair (g : Record) (file : String) (store : List Record) (pr : PrerenderPair) :
    Except Err (List Record) :=
  if ¬ strStartsWith pr.url "/" then .error (.assertFail "url.startsWith slash") else
  if ¬ pageContextShapeOk pr.pageContext then .error (.assertFail "pageContext shape") else
  match findCtx store pr.url with
  | none =>
      let ctx := mergeRecord g [("_prerenderSourceFile", .str file), ("url", .str pr.url)]
      .ok (store ++ [applyPageContext ctx pr.pageContext])
  | some _ =>
      .ok (store.map (fun ctx =>
        if urlOf ctx == some pr.url then applyPageContext ctx pr.pageContext else ctx))

/-- Sequential application of the normalized pairs of one hook result. -/
def applyPairs (g : Record) (file : String) (store : List Record) :
    List PrerenderPair → Except Err (List Record)
  | [] => .ok store
  | pr :: rest => do
      let store2 ← applyPair g file store pr
      applyPairs g file store2 rest

/-- State accumulated by the hook-invocation phase: the Page Context Store
and the exclusion list. -/
structure HookPhaseState where
  store : List Record
  doNot : List DoNotPrerenderEntry

def prerenderNotFnMsg (filePath : String) : String :=
  "export \x7b prerender \x7d of " ++ filePath ++ " should be a function."

/-- Per-file unit of work of `callPrerenderHooks` (prerender.ts, lines
169-213): record a truthy `doNotPrerender` export, skip a falsy `prerender`
export, reject a truthy non-callable `prerender` export, else invoke the
hook, normalize its result and merge every pair into the store. -/
def processPageServerFile (g : Record) (st : HookPhaseState) (p : PageFile) :
    Except Err HookPhaseState :=
  if truthy (exportOf p "doNotPrerender") then
    .ok { st with doNot := st.doNot ++ [⟨p.pageId, p.filePath⟩] }
  else
    let pr := exportOf p "prerender"
    if ¬ truthy pr then .ok st
    else if ¬ isCallable pr then .error (.usage (prerenderNotFnMsg p.filePath))
    else
      match pr with
      | .func ret => do
          let (_post, pairs) ← normalizePrerenderResult ret p.filePath
          let store2 ← applyPairs g p.filePath st.store pairs
          .ok { st with store := store2 }
      | _ => .error (.assertFail "callable prerender export")

/-- `callPrerenderHooks` (prerender.ts, lines 159-216): every `.page.server`
file is processed; units run sequentially in submission order (the bounded
runner schedules cooperatively on one thread). -/
def callPrerenderHooks (g : Record) (files : List PageFile) : Except Err HookPhaseState :=
  (files.filter (fun p => p.fileType == ".page.server")).foldlM (processPageServerFile g) ⟨[], []⟩

/-- Modelled from the spec: `isObjectWithKeys` (the utils implementation is
not under `src/`); holds when the value is a plain record all of whose keys
are among the allowed list. -/
def isObjectWithKeys (v : JSValue) (keys : List String) : Bool :=
  match v with
  | .obj fields => fields.all (fun p => keys.contains p.1)
  | _ => false

/-- `hasProp(obj, key)`: the value is an object carrying the key. -/
def hasPropB (v : JSValue) (key : String) : Bool :=
  match v with
  | .obj fields => hasKey fields key
  | _ => false

def onlyOneOnBeforeMsg : String :=
  "There can be only one onBeforePrerender() hook. If you need to be able to define several, open a new GitHub issue."

def onBeforeNotFnMsg (filePath : String) : String :=
  "export \x7b onBeforePrerender \x7d of " ++ filePath ++ " should be a function."

def onBeforeShapeMsg (filePath : String) : String :=
  "The onBeforePrerender() hook exported by " ++ filePath ++
    " should return null, undefined, or a plain JavaScript object \x7b globalContext: \x7b ... \x7d \x7d."

def onBeforeGlobalCtxMsg (filePath : String) : String :=
  "The onBeforePrerender() hook exported by " ++ filePath ++
    " returned \x7b globalContext \x7d but globalContext should be a plain JavaScript object."

/-- The default (non-variant) `.page.server` files that declare a truthy
`onBeforePrerender` export, with their file paths (prerender.ts, lines
274-280). -/
def collectOnBeforeHooks (files : List PageFile) : List (String × JSValue) :=
  (files.filter (fun p => p.fileType == ".page.server" && p.isDefaultPageFile)).filterMap
    (fun p =>
      let v := exportOf p "onBeforePrerender"
      if truthy v then some (p.filePath, v) else none)

/-- `callOnBeforePrerenderHook` (prerender.ts, lines 270-306): at most one
hook; a `null`/`undefined` return leaves the global context unchanged; a
return of exactly `\x7b globalContext: <plain record> \x7d` is shallow-merged
into it; any other shape is a fatal usage error. -/
def callOnBeforePrerenderHook (files : List PageFile) (g : Record) : Except Err Record :=
  match collectOnBeforeHooks files with
  | [] => .ok g
  | (filePath, hv) :: rest =>
    if ¬ rest.isEmpty then .error (.usage onlyOneOnBeforeMsg)
    else if ¬ isCallable hv then .error (.usage (onBeforeNotFnMsg filePath))
    else
      match hv with
      | .func r =>
        match r with
        | .null => .ok g
        | .undefined => .ok g
        | r =>
          if ¬ (isObjectWithKeys r ["globalContext"] && hasPropB r "globalContext") then
            .error (.usage (onBeforeShapeMsg filePath))
          else
            match r with
            | .obj fields =>
              match getKey fields "globalContext" with
              | some (.obj m) => .ok (mergeRecord g m)
              | some _ => .error (.usage (onBeforeGlobalCtxMsg filePath))
              | none => .error (.assertFail "globalContext present")
            | _ => .error (.assertFail "plain object return")
      | _ => .error (.assertFail "callable onBeforePrerender export")

/-- Modelled from the spec: `isStaticRoute` (`shared/route` is not under
`src/`); a Route String is static when it is "a literal, parameter-free
path", i.e. no segment is a `:parameter`. -/
def isStaticRoute (routeValue : String) : Bool :=
  (routeValue.splitOn "/").all (fun s => ¬ strStartsWith s ":")

/-- A page route descriptor (the parts of `loadPageRoutes` output the
static-route phase reads): an optional Route String from a `.page.route`
file, else the filesystem route. -/
structure PageRoute where
  pageId : String
  pageRouteFile : Option JSValue
  filesystemRoute : String

/-- Creation of the RenderContext for a page with a static route
(prerender.ts, lines 249-264): skipped when a `prerender()` hook already
contributed the URL, else the context is created and the server data of the
page is eagerly loaded into it. -/
def addStaticCtx (loadServer : String → Record) (g : Record) (store : List Record)
    (pageId url : String) : List Record :=
  if (findCtx store url).isSome then store
  else
    let ctx := mergeRecord g
      [("_prerenderSourceFile", .null), ("url", .str url),
       ("routeParams", .obj []), ("_pageId", .str pageId)]
    store ++ [mergeRecord ctx (loadServer pageId)]

/-- Per-route unit of work of `handlePagesWithStaticRoutes` (prerender.ts,
lines 227-265): skip excluded pages; a Route Function or parameterized Route
String is skipped; otherwise the literal URL gets a RenderContext. -/
def staticRouteStep (loadServer : String → Record) (g : Record)
    (doNot : List DoNotPrerenderEntry) (store : List Record) (pr : PageRoute) :
    Except Err (List Record) :=
  if doNot.any (fun e => e.pageId == pr.pageId) then .ok store
  else
    match pr.pageRouteFile with
    | some (.str routeValue) =>
      if isStaticRoute routeValue then
        if ¬ strStartsWith routeValue "/" then .error (.assertFail "routeValue.startsWith slash")
        else .ok (addStaticCtx loadServer g store pr.pageId routeValue)
      else .ok store
    | some _ => .ok store
    | none =>
      if ¬ strStartsWith pr.filesystemRoute "/" then .error (.assertFail "url.startsWith slash")
      else .ok (addStaticCtx loadServer g store pr.pageId pr.filesystemRoute)

/-- `handlePagesWithStaticRoutes` (prerender.ts, lines 218-268), units run
sequentially in submission order. -/
def handlePagesWithStaticRoutes (loadServer : String → Record) (g : Record)
    (doNot : List DoNotPrerenderEntry) (store : List Record) (routes : List PageRoute) :
    Except Err (List Record) :=
  routes.foldlM (staticRouteStep loadServer g doNot) store

/-- Result of the external routing resolver `route(pageContext)`: either an
internal hook fault or a page-context addendum (carrying `_pageId`). -/
inductive RouteResult where
  | hookError (err : JSValue)
  | routed (pageContextAddendum : Record)

/-- One rendered output document (`HtmlFile` in prerender.ts). -/
structure HtmlFile where
  url : String
  pageContext : Record
  htmlString : String
  pageContextSerialized : Option String
  doNotCreateExtraDirectory : Bool
  pageId : Option String

/-- Observable pipeline events, used to state the temporal ordering of
rendering, writing and the coverage-validator checks. -/
inductive Event where
  | docRendered (url : String)
  | contradictionCheck
  | doc404Rendered
  | fileWritten (url : String) (ext : String)
  | missingCheck
deriving DecidableEq

/-- Update of the JavaScript object `prerenderPageIds` at one key. -/
def setId : List (String × PrerenderedInfo) → String → PrerenderedInfo →
    List (String × PrerenderedInfo)
  | [], key, v => [(key, v)]
  | (k, w) :: rest, key, v =>
      if k = key then (key, v) :: rest else (k, w) :: setId rest key v

/-- Lookup in `prerenderPageIds`. -/
def lookupId (m : List (String × PrerenderedInfo)) (k : String) : Option PrerenderedInfo :=
  (m.find? (fun p => p.1 == k)).map Prod.snd

/-- The external collaborators the routing + rendering phase consumes. -/
structure Env where
  pageFilesAll : List PageFile
  pageRoutes : List PageRoute
  routeFn : Record → RouteResult
  loadServer : String → Record
  renderPage : Record → String × Option String
  static404 : Option (String × Record)
  allPageIds : List String
  isErrPage : String → Bool
  noExtraDir : Bool
  partialFlag : Bool

def noRouteMatchMsg (sourceFile url : String) : String :=
  "Your prerender() hook defined in " ++ sourceFile ++ " returns an URL " ++ url ++
    " that does not match any page route. Make sure the URLs your return in your prerender() hooks always match the URL of a page."

/-- Accumulator of the routing + rendering phase. -/
structure RouteRenderAcc where
  htmlFiles : List HtmlFile
  pageIds : List (String × PrerenderedInfo)
  log : List Event

/-- Per-context unit of work of `routeAndPrerender` (prerender.ts, lines
317-357): route the URL, abort on a router fault or on a hook-contributed
URL that matches no page, else load the page data, render, and record the
document and the rendered page id. -/
def routeRenderStep (env : Env) (acc : RouteRenderAcc) (ctx : Record) :
    Except Err RouteRenderAcc :=
  match urlOf ctx with
  | none => .error (.assertFail "url string")
  | some u =>
    match env.routeFn ctx with
    | .hookError e => .error (.upstream e)
    | .routed addendum =>
      match getKey addendum "_pageId" with
      | some .null =>
        match srcOf ctx with
        | some f => .error (.usage (noRouteMatchMsg f u))
        | none => .error (.assertFail "prerenderSourceFile")
      | some (.str pid) =>
        let ctx2 := mergeRecord ctx addendum
        let ctx3 := mergeRecord ctx2 (env.loadServer pid)
        let r := env.renderPage ctx3
        .ok { htmlFiles := acc.htmlFiles ++ [⟨u, ctx3, r.1, r.2, env.noExtraDir, some pid⟩],
              pageIds := setId acc.pageIds pid ⟨u, srcOf ctx⟩,
              log := acc.log ++ [.docRendered u] }
      | _ => .error (.assertFail "pageId null or string")

/-- `routeAndPrerender` (prerender.ts, lines 308-360), units run
sequentially in submission order. -/
def routeAndPrerenderGo (env : Env) (acc : RouteRenderAcc) :
    List Record → Except Err RouteRenderAcc
  | [] => .ok acc
  | ctx :: rest => do
      let acc2 ← routeRenderStep env acc ctx
      routeAndPrerenderGo env acc2 rest

def mkContradictoryMsg (sourceFile url pageServerFilePath : String) : String :=
  "Your prerender() hook defined in " ++ sourceFile ++ " returns the URL " ++ url ++
    " which matches the page with " ++ pageServerFilePath ++
    "#doNotPrerender === true. This is contradictory: either do not set doNotPrerender or remove the URL from the list of URLs to be pre-rendered."

/-- `warnContradictoryNoPrerenderList` (prerender.ts, lines 362-376): the
first rendered page id that also appears in the exclusion list aborts with a
fatal usage error naming the hook source file and the excluding file. -/
def warnContradictoryNoPrerenderList :
    List (String × PrerenderedInfo) → List DoNotPrerenderEntry → Except Err Unit
  | [], _ => .ok ()
  | (pid, info) :: rest, doNot =>
    match doNot.find? (fun e => e.pageId == pid) with
    | some hit =>
      match info.prerenderSourceFile with
      | some f => .error (.usage (mkContradictoryMsg f info.url hit.pageServerFilePath))
      | none => .error (.assertFail "prerenderSourceFile nonnull")
    | none => warnContradictoryNoPrerenderList rest doNot

/-- `prerender404Page` (prerender.ts, lines 397-413): when no document for
`/404` exists and the external renderer produces a static 404 page, it is
appended with `pageId = null`, forced single-file placement, and no
serialized context. -/
def prerender404Page (env : Env) (htmlFiles : List HtmlFile) : List HtmlFile × List Event :=
  if htmlFiles.any (fun h => h.url == "/404") then (htmlFiles, [])
  else
    match env.static404 with
    | some (html, ctx) => (htmlFiles ++ [⟨"/404", ctx, html, none, true, none⟩], [.doc404Rendered])
    | none => (htmlFiles, [])

/-- `writeHtmlFile` (prerender.ts, lines 415-458): one write for the
document and, when a serialized context exists, one for the sibling
`.pageContext.json` file. -/
def writeHtmlFileEvents (doNot : List DoNotPrerenderEntry) (h : HtmlFile) :
    Except Err (List Event) :=
  if ¬ strStartsWith h.url "/" then .error (.assertFail "url.startsWith slash")
  else if (match h.pageId with
           | some pid => doNot.any (fun e => e.pageId == pid)
           | none => false) then .error (.assertFail "not in doNotPrerenderList")
  else .ok ([.fileWritten h.url ".html"] ++
    (match h.pageContextSerialized with
     | some _ => [.fileWritten h.url ".pageContext.json"]
     | none => []))

/-- The output-writing fan-out (prerender.ts, lines 150-154). -/
def writePhase (doNot : List DoNotPrerenderEntry) : List HtmlFile → Except Err (List Event)
  | [] => .ok []
  | h :: rest => do
      let ev ← writeHtmlFileEvents doNot h
      let evs ← writePhase doNot rest
      .ok (ev ++ evs)

def mkMissingMsg (pageId : String) : String :=
  "Could not pre-render page " ++ pageId ++
    ".page.* because it has a non-static route, and no prerender() hook returned (an) URL(s) matching the page route. Either use a prerender() hook to pre-render the page, or use the --partial option to suppress this warning."

/-- The page ids the missing-coverage check complains about: in the full
inventory, not rendered, not excluded, not an error page (prerender.ts,
lines 384-387). -/
def missingPageIds (rendered : List (String × PrerenderedInfo))
    (doNot : List DoNotPrerenderEntry) (allIds : List String) (isErr : String → Bool) :
    List String :=
  ((allIds.filter (fun pid => (lookupId rendered pid).isNone)).filter
      (fun pid => ¬ doNot.any (fun e => e.pageId == pid))).filter
    (fun pid => ¬ isErr pid)

/-- `assertWarning(..., \x7b onlyOnce: true \x7d)` de-duplication: a message
is printed at most once. -/
def emitOnlyOnce (msgs : List String) : List String :=
  msgs.foldl (fun acc m => if acc.contains m then acc else acc ++ [m]) []

/-- `warnMissingPages` (prerender.ts, lines 378-395): non-fatal,
de-duplicated warnings, fully suppressed by the `partial` flag. -/
def warnMissingPages (rendered : List (String × PrerenderedInfo))
    (doNot : List DoNotPrerenderEntry) (allIds : List String) (isErr : String → Bool)
    (partialFlag : Bool) : List String :=
  if partialFlag then []
  else emitOnlyOnce ((missingPageIds rendered doNot allIds isErr).map mkMissingMsg)

/-- The deprecated legacy options a caller may still pass to the entry
point (prerender.ts, lines 64-75): `none` models an unsupplied option. -/
structure PrerenderOptions where
  partialFlag : Option JSValue
  noExtraDir : Option JSValue
  base : Option JSValue
  root : Option JSValue
  outDir : Option JSValue
  parallel : Option JSValue

def deprecatedFatalMsg (prop : String) : String :=
  "[prerender()] Option " ++ prop ++
    " is deprecated. Define " ++ prop ++ " in vite.config.js instead. See https://vite-plugin-ssr.com/config"

def deprecatedWarnMsg (prop : String) : String :=
  "[prerender()] Option " ++ prop ++
    " is deprecated and has no effect (vite-plugin-ssr now automatically determines " ++ prop ++ ")"

/-- Modelled from the spec: `isAbsolute` of the node `path` module (not
part of this repository); on the posix layout an absolute path starts with
a slash. -/
def isAbsolutePath (s : String) : Bool :=
  strStartsWith s "/"

def optionIsBoolOrAbsent : Option JSValue → Bool
  | none => true
  | some (.bool _) => true
  | some _ => false

def optionIsStringOrAbsent : Option JSValue → Bool
  | none => true
  | some (.str _) => true
  | some _ => false

def optionIsAbsoluteOrAbsent : Option JSValue → Bool
  | none => true
  | some (.str s) => isAbsolutePath s
  | some _ => true

def optionTruthyOrAbsent : Option JSValue → Bool
  | none => true
  | some v => truthy v

/-- `checkOutdatedOptions` (prerender.ts, lines 541-584): `noExtraDir`,
`partial` and `parallel` are rejected with a fatal usage error when
supplied; `base`, `root` and `outDir` produce a one-time warning; the
remaining type checks then run (those on `partial`, `noExtraDir` and
`parallel` are unreachable because any supplied value was already
rejected). -/
def checkOutdatedOptions (o : PrerenderOptions) : Except Err (List String) :=
  if o.noExtraDir.isSome then .error (.usage (deprecatedFatalMsg "noExtraDir"))
  else if o.partialFlag.isSome then .error (.usage (deprecatedFatalMsg "partial"))
  else if o.parallel.isSome then .error (.usage (deprecatedFatalMsg "parallel"))
  else
    let warns := emitOnlyOnce
      ((if o.base.isSome then [deprecatedWarnMsg "base"] else []) ++
       (if o.root.isSome then [deprecatedWarnMsg "root"] else []) ++
       (if o.outDir.isSome then [deprecatedWarnMsg "outDir"] else []))
    if ¬ optionIsBoolOrAbsent o.partialFlag then
      .error (.usage "[prerender()] Option partial should be a boolean.")
    else if ¬ optionIsBoolOrAbsent o.noExtraDir then
      .error (.usage "[prerender()] Option noExtraDir should be a boolean.")
    else if ¬ optionIsStringOrAbsent o.root then
      .error (.usage "[prerender()] Option root should be a string.")
    else if ¬ optionIsAbsoluteOrAbsent o.root then
      .error (.usage "[prerender()] The path root is not absolute. Make sure to provide an absolute path.")
    else if ¬ optionIsStringOrAbsent o.outDir then
      .error (.usage "[prerender()] Option outDir should be a string.")
    else if ¬ optionTruthyOrAbsent o.parallel then
      .error (.usage "[prerender()] Option parallel should be a number >=1.")
    else .ok warns

/-- Result of one full pipeline execution. -/
structure RunResult where
  events : List Event
  warnings : List String
  htmlFiles : List HtmlFile

/-- The Pipeline Orchestrator (`prerender`, prerender.ts lines 130-157):
hook invocation, static-route discovery, global before-hook, routing +
rendering, the contradiction check, the 404 fallback, output writing, and
the missing-coverage check, in this statement order. -/
def prerenderRun (env : Env) (g : Record) : Except Err RunResult := do
  let st ← callPrerenderHooks g env.pageFilesAll
  let store ← handlePagesWithStaticRoutes env.loadServer g st.doNot st.store env.pageRoutes
  let _g2 ← callOnBeforePrerenderHook env.pageFilesAll g
  let acc ← routeAndPrerenderGo env ⟨[], [], []⟩ store
  let _ ← warnContradictoryNoPrerenderList acc.pageIds st.doNot
  let (files2, log404) := prerender404Page env acc.htmlFiles
  let writeLog ← writePhase st.doNot files2
  let warns := warnMissingPages acc.pageIds st.doNot env.allPageIds env.isErrPage env.partialFlag
  .ok ⟨acc.log ++ [.contradictionCheck] ++ log404 ++ writeLog ++ [.missingCheck], warns, files2⟩

def isValidatorCheck : Event → Bool
  | .contradictionCheck => true
  | .missingCheck => true
  | _ => false

def isRenderOrWrite : Event → Bool
  | .docRendered _ => true
  | .doc404Rendered => true
  | .fileWritten _ _ => true
  | _ => false

/-- The formalization of the temporal claim "no validator check executes
before every RenderedDocument has been produced and every write has
resolved": no render or write event follows a validator-check event. -/
def noCheckBeforeAction : List Event → Bool
  | [] => true
  | e :: rest =>
      (if isValidatorCheck e then rest.all (fun x => ¬ isRenderOrWrite x) else true) &&
        noCheckBeforeAction rest

/-- The event trace of a successful run. -/
def eventsOfRun (env : Env) (g : Record) : Option (List Event) :=
  match prerenderRun env g with
  | .ok r => some r.events
  | .error _ => none

/-- Modelled from the spec: the Bounded Task Runner (`pLimit(parallel)`;
the `p-limit` implementation is not under `src/`).  A state records the
fixed concurrency ceiling, the number of units actively running, and the
number of queued submissions. -/
structure LimitState where
  limit : Nat
  active : Nat
  queued : Nat
deriving DecidableEq

/-- Modelled from the spec: the transitions of the Bounded Task Runner.  A
submission below the ceiling starts immediately; a submission at the
ceiling queues; a finishing unit either leaves an empty queue or admits the
next queued unit in its place. -/
inductive LimitStep : LimitState → LimitState → Prop
  | submitRun (s : LimitState) (h : s.active < s.limit) :
      LimitStep s ⟨s.limit, s.active + 1, s.queued⟩
  | submitQueue (s : LimitState) (h : s.limit ≤ s.active) :
      LimitStep s ⟨s.limit, s.active, s.queued + 1⟩
  | finishIdle (s : LimitState) (ha : 0 < s.active) (hq : s.queued = 0) :
      LimitStep s ⟨s.limit, s.active - 1, 0⟩
  | finishStartNext (s : LimitState) (ha : 0 < s.active) (hq : 0 < s.queued) :
      LimitStep s ⟨s.limit, s.active, s.queued - 1⟩

/-- The runner starts with no active and no queued units. -/
def limitInit (n : Nat) : LimitState :=
  ⟨n, 0, 0⟩

/-- The states a runner with ceiling `n` can reach. -/
def LimitReachable (n : Nat) (s : LimitState) : Prop :=
  Relation.ReflTransGen LimitStep (limitInit n) s

/-- The in-place mutation `normalize()` performs on one element: a record
element lacking a `pageContext` key receives `pageContext := null`. -/
def addPageContextDefault : JSValue → JSValue
  | .obj fields =>
      if hasKey fields "pageContext" then .obj fields
      else .obj (fields ++ [("pageContext", .null)])
  | v => v

/-- The in-place mutation `normalizePrerenderResult` performs on the whole
raw hook result. -/
def addPageContextDefaults : JSValue → JSValue
  | .arr els => .arr (els.map addPageContextDefault)
  | v => addPageContextDefault v

def elementHasPageContext : JSValue → Bool
  | .obj fields => hasKey fields "pageContext"
  | _ => true

/-- Whether every record element of a raw hook result already carries a
`pageContext` key (the inputs the normalizer does not mutate). -/
def allElementsHavePageContext : JSValue → Bool
  | .arr els => els.all elementHasPageContext
  | v => elementHasPageContext v

def pageFileStrHook : PageFile :=
  ⟨"pages/foo", "pages/foo.page.server.js", ".page.server", true,
   [("prerender", .func (.str "foo"))]⟩

def pageFileFalseHook : PageFile :=
  ⟨"pages/f", "pages/f.page.server.js", ".page.server", true,
   [("prerender", .bool false)]⟩

def pageFileNumHook : PageFile :=
  ⟨"pages/n", "pages/n.page.server.js", ".page.server", true,
   [("prerender", .num 1)]⟩

def optsOutDirOnly : PrerenderOptions :=
  ⟨none, none, none, none, some (.str "custom-dist"), none⟩

def optsRootNum : PrerenderOptions :=
  ⟨none, none, none, some (.num 42), none, none⟩

def optsParallelFour : PrerenderOptions :=
  ⟨none, none, none, none, none, some (.num 4)⟩

def contradictionEntries : List (String × PrerenderedInfo) :=
  [("pages/a", ⟨"/a", some "pages/a.page.server.js"⟩)]

def contradictionDoNot : List DoNotPrerenderEntry :=
  [⟨"pages/a", "pages/a2.page.server.js"⟩]

def onBeforeHookFiles : List PageFile :=
  [⟨"pages/_default", "_default.page.server.js", ".page.server", true,
    [("onBeforePrerender", .func (.obj [("globalContext", .obj [("a", .num 1)])]))]⟩]

/-- A `.page.server` file whose `prerender()` hook returns a single
`\x7b url, pageContext \x7d` record. -/
def hookPageFile (pid file u : String) (c : Record) : PageFile :=
  ⟨pid, file, ".page.server", true,
   [("prerender", .func (.obj [("url", .str u), ("pageContext", .obj c)]))]⟩

/-- The provenance recorded for the context of `url` after the hook
phase. -/
def provenanceAt (st : Except Err HookPhaseState) (url : String) : Option String :=
  match st with
  | .ok s =>
      match findCtx s.store url with
      | some ctx => srcOf ctx
      | none => none
  | .error _ => none

/-- The context created for `url` by the first hook (spread of the global
context, provenance, url, then the merged `pageContext`). -/
def mergedHookCtx1 (g c1 : Record) (f1 u : String) : Record :=
  mergeRecord (mergeRecord g [("_prerenderSourceFile", .str f1), ("url", .str u)])
    (("_pageContextAlreadyProvidedByPrerenderHook", .bool true) :: c1)

/-- The same context after a second hook merged its `pageContext` for the
same URL. -/
def mergedHookCtx2 (g c1 c2 : Record) (f1 u : String) : Record :=
  mergeRecord (mergedHookCtx1 g c1 f1 u)
    (("_pageContextAlreadyProvidedByPrerenderHook", .bool true) :: c2)

/-- The external environment of the counterexample run: one page with the
literal filesystem route `/a`, a resolver that maps it to its page id, a
renderer producing a document, and a static 404 renderer producing a
fallback document. -/
def envC4 : Env :=
  ⟨[], [⟨"pages/a", none, "/a"⟩],
   fun _ => .routed [("_pageId", .str "pages/a"), ("routeParams", .obj [])],
   fun _ => [], fun _ => ("html-a", none), some ("html-404", []),
   ["pages/a"], fun _ => false, false, false⟩

def resC4 : RunResult :=
  ⟨[.docRendered "/a", .contradictionCheck, .doc404Rendered, .fileWritten "/a" ".html",
    .fileWritten "/404" ".html", .missingCheck], [],
   [⟨"/a", [("_prerenderSourceFile", .null), ("url", .str "/a"), ("routeParams", .obj []),
      ("_pageId", .str "pages/a")], "html-a", none, false, some "pages/a"⟩,
    ⟨"/404", [], "html-404", none, true, none⟩]⟩

theorem getKey_setKey (r : Record) (key k : String) (v : JSValue) :
    getKey (setKey r key v) k = if k = key then some v else getKey r k := by
  induction r with
  | nil =>
      by_cases h : k = key
      · simp [setKey, getKey, h]
      · have h2 : ¬ key = k := fun hh => h hh.symm
        simp [setKey, getKey, h, h2]
  | cons p rest ih =>
      obtain ⟨a, b⟩ := p
      by_cases hak : a = key
      · subst hak
        by_cases hk : k = a
        · subst hk
          simp [setKey, getKey]
        · have hk2 : ¬ a = k := fun hh => hk hh.symm
          simp [setKey, getKey, hk, hk2]
      · by_cases hk2 : a = k
        · subst hk2
          have hkk : ¬ a = key := hak
          simp [setKey, getKey, hak, hkk]
        · simp [setKey, getKey, hak, hk2, ih]

theorem getKey_eq_none (r : Record) (k : String) (h : ¬ k ∈ r.map Prod.fst) :
    getKey r k = none := by
  induction r with
  | nil => rfl
  | cons p rest ih =>
      obtain ⟨a, b⟩ := p
      simp only [List.map_cons, List.mem_cons] at h
      push_neg at h
      have h1 : ¬ a = k := fun hh => h.1 hh.symm
      simp only [getKey, if_neg h1]
      exact ih h.2

theorem mergeRecord_cons (t : Record) (p : String × JSValue) (s : Record) :
    mergeRecord t (p :: s) = mergeRecord (setKey t p.1 p.2) s := rfl

theorem getKey_mergeRecord (s : Record) (t : Record) (k : String)
    (hs : (s.map Prod.fst).Nodup) :
    getKey (mergeRecord t s) k = optOr (getKey s k) (getKey t k) := by
  induction s generalizing t with
  | nil => simp [mergeRecord, getKey, optOr]
  | cons p rest ih =>
      obtain ⟨a, b⟩ := p
      simp only [List.map_cons, List.nodup_cons] at hs
      rw [mergeRecord_cons, ih _ hs.2]
      rw [show setKey t (a, b).1 (a, b).2 = setKey t a b from rfl, getKey_setKey]
      by_cases hk : k = a
      · have hrest : getKey rest k = none := by
          refine getKey_eq_none rest k ?_
          rw [hk]
          exact hs.1
        rw [if_pos hk, hrest]
        simp only [getKey, if_pos hk.symm]
        rfl
      · have hk2 : ¬ a = k := fun hh => hk hh.symm
        simp [getKey, optOr, hk, hk2]

/-- C1: the claim states that every produced url starts with a slash and
that a url not starting with a slash is rejected with a usage error naming
the offending file.  The code checks the slash only for record elements: a
bare string element is returned unchecked (prerender.ts, line 512), and the
call site then trips its own internal assertion
`assert(url.startsWith(SLASH))` (line 193) instead of raising the usage
error the code itself promises ("Make sure each URL starts with /"). -/
theorem prerender_string_url_unchecked :
    normalizePrerenderResult (.str "foo") "pages/foo.page.server.js" =
      .ok (.str "foo", [⟨"foo", .null⟩]) ∧
    processPageServerFile [] ⟨[], []⟩ pageFileStrHook =
      .error (.assertFail "url.startsWith slash") := ⟨rfl, rfl⟩

/-- C10 counterexample: the claim predicts a fatal usage error whenever a
`prerender` export is present but not callable.  The export value `false`
is present and not callable, yet `if (!prerender) return` (prerender.ts,
line 177) skips it silently. -/
theorem falsy_prerender_export_cex :
    hasKey pageFileFalseHook.fileExports "prerender" = true ∧
    isCallable (exportOf pageFileFalseHook "prerender") = false ∧
    processPageServerFile [] ⟨[], []⟩ pageFileFalseHook = .ok ⟨[], []⟩ :=
  ⟨rfl, rfl, rfl⟩

/-- C10 (amended): a `.page.server` file without a truthy `doNotPrerender`
flag whose `prerender` export is truthy but not callable aborts its unit of
work with a fatal usage error naming the file path, before any URL of that
file reaches the store. -/
theorem truthy_noncallable_prerender_export (g : Record) (st : HookPhaseState) (p : PageFile)
    (h1 : truthy (exportOf p "doNotPrerender") = false)
    (h2 : truthy (exportOf p "prerender") = true)
    (h3 : isCallable (exportOf p "prerender") = false) :
    processPageServerFile g st p = .error (.usage (prerenderNotFnMsg p.filePath)) := by
  unfold processPageServerFile
  simp [h1, h2, h3]

theorem truthy_noncallable_prerender_export_witness :
    processPageServerFile [] ⟨[], []⟩ pageFileNumHook =
      .error (.usage (prerenderNotFnMsg "pages/n.page.server.js")) :=
  truthy_noncallable_prerender_export [] ⟨[], []⟩ pageFileNumHook rfl rfl rfl

/-- C8 counterexample: the claim places the output-directory override in
the rejected group and says the accepted options are otherwise ignored for
any value.  The code only warns for `outDir` (prerender.ts, lines 555-563),
and it rejects a non-string `root` with a fatal usage error (line 574). -/
theorem outdated_options_cex :
    checkOutdatedOptions optsOutDirOnly = .ok [deprecatedWarnMsg "outDir"] ∧
    checkOutdatedOptions optsRootNum =
      .error (.usage "[prerender()] Option root should be a string.") := ⟨rfl, rfl⟩

/-- C8 (amended): the rejected deprecated options are `noExtraDir`,
`partial` and `parallel` (each is a fatal usage error when supplied, for
any value); `base`, `root` and `outDir` instead produce a one-time warning
and are otherwise ignored, except that a supplied `root` must be an
absolute-path string and a supplied `outDir` must be a string, on pain of a
fatal usage error. -/
theorem outdated_options_amended (o : PrerenderOptions) :
    (o.noExtraDir.isSome = true ∨ o.partialFlag.isSome = true ∨ o.parallel.isSome = true →
       ∃ m, checkOutdatedOptions o = .error (.usage m)) ∧
    (o.noExtraDir = none → o.partialFlag = none → o.parallel = none →
       (optionIsStringOrAbsent o.root = true → optionIsAbsoluteOrAbsent o.root = true →
          optionIsStringOrAbsent o.outDir = true →
          checkOutdatedOptions o = .ok (emitOnlyOnce
            ((if o.base.isSome then [deprecatedWarnMsg "base"] else []) ++
             (if o.root.isSome then [deprecatedWarnMsg "root"] else []) ++
             (if o.outDir.isSome then [deprecatedWarnMsg "outDir"] else [])))) ∧
       ((optionIsStringOrAbsent o.root = false ∨ optionIsAbsoluteOrAbsent o.root = false ∨
           optionIsStringOrAbsent o.outDir = false) →
          ∃ m, checkOutdatedOptions o = .error (.usage m))) := by
  constructor
  · intro h
    unfold checkOutdatedOptions
    by_cases h1 : o.noExtraDir.isSome = true
    · rw [if_pos h1]
      exact ⟨_, rfl⟩
    · rw [if_neg h1]
      by_cases h2 : o.partialFlag.isSome = true
      · rw [if_pos h2]
        exact ⟨_, rfl⟩
      · rw [if_neg h2]
        have h3 : o.parallel.isSome = true := by
          rcases h with h | h | h
          · exact absurd h h1
          · exact absurd h h2
          · exact h
        rw [if_pos h3]
        exact ⟨_, rfl⟩
  · intro h1 h2 h3
    constructor
    · intro hr ha ho
      unfold checkOutdatedOptions
      simp [h1, h2, h3, optionIsBoolOrAbsent, optionTruthyOrAbsent, hr, ha, ho]
    · intro hbad
      unfold checkOutdatedOptions
      simp only [h1, h2, h3, Option.isSome_none, Bool.false_eq_true, if_false,
        optionIsBoolOrAbsent, optionTruthyOrAbsent, not_true, not_false_iff, if_true]
      rcases hbad with hb | hb | hb
      · simp [hb]
      · by_cases hs : optionIsStringOrAbsent o.root = true
        · simp [hs, hb]
        · simp [hs]
      · by_cases hs : optionIsStringOrAbsent o.root = true
        · by_cases ha : optionIsAbsoluteOrAbsent o.root = true
          · simp [hs, ha, hb]
          · simp [hs, ha]
        · simp [hs]

/-- C3: when every rendered entry carries the provenance of the hook that
produced it (which holds in the pipeline, since the static-route phase
skips every excluded page id), the contradiction check (i) succeeds only if
the rendered page ids and the excluded page ids are disjoint, and (ii)
aborts on any shared page id with a fatal usage error whose message is
built from the offending hook source file and the excluding page-server
file. -/
theorem contradiction_check_fatal (entries : List (String × PrerenderedInfo))
    (doNot : List DoNotPrerenderEntry)
    (hsrc : ∀ p ∈ entries, p.2.prerenderSourceFile.isSome = true) :
    (warnContradictoryNoPrerenderList entries doNot = .ok () →
       ∀ p ∈ entries, ∀ e ∈ doNot, ¬ e.pageId = p.1) ∧
    ((∃ p ∈ entries, ∃ e ∈ doNot, e.pageId = p.1) →
       ∃ p ∈ entries, ∃ e ∈ doNot, ∃ f, e.pageId = p.1 ∧
         p.2.prerenderSourceFile = some f ∧
         warnContradictoryNoPrerenderList entries doNot =
           .error (.usage (mkContradictoryMsg f p.2.url e.pageServerFilePath))) := by
  induction entries with
  | nil =>
      constructor
      · intro _ p hp
        exact absurd hp (List.not_mem_nil p)
      · rintro ⟨p, hp, -⟩
        exact absurd hp (List.not_mem_nil p)
  | cons hd rest ih =>
      obtain ⟨pid, info⟩ := hd
      have hsrcRest : ∀ p ∈ rest, p.2.prerenderSourceFile.isSome = true :=
        fun p hp => hsrc p (List.mem_cons_of_mem _ hp)
      cases hfind : doNot.find? (fun e => e.pageId == pid) with
      | none =>
          have hnone : ∀ e ∈ doNot, ¬ e.pageId = pid := by
            intro e he heq
            have := List.find?_eq_none.mp hfind e he
            simp [heq] at this
          have hrec := ih hsrcRest
          constructor
          · intro hok p hp e he
            have hok2 : warnContradictoryNoPrerenderList rest doNot = .ok () := by
              simpa [warnContradictoryNoPrerenderList, hfind] using hok
            rcases List.mem_cons.mp hp with hp | hp
            · subst hp
              exact hnone e he
            · exact hrec.1 hok2 p hp e he
          · rintro ⟨p, hp, e, he, heq⟩
            rcases List.mem_cons.mp hp with hp | hp
            · subst hp
              exact absurd heq (hnone e he)
            · obtain ⟨p2, hp2, e2, he2, f, h1, h2, h3⟩ := hrec.2 ⟨p, hp, e, he, heq⟩
              refine ⟨p2, List.mem_cons_of_mem _ hp2, e2, he2, f, h1, h2, ?_⟩
              simpa [warnContradictoryNoPrerenderList, hfind] using h3
      | some hit =>
          have hmem : hit ∈ doNot := List.mem_of_find?_eq_some hfind
          have hhit : hit.pageId = pid := by
            have := List.find?_some hfind
            simpa using this
          obtain ⟨f, hf⟩ := Option.isSome_iff_exists.mp
            (hsrc (pid, info) (List.mem_cons_self _ _))
          have hf2 : info.prerenderSourceFile = some f := hf
          constructor
          · intro hok
            rw [show warnContradictoryNoPrerenderList ((pid, info) :: rest) doNot =
                  .error (.usage (mkContradictoryMsg f info.url hit.pageServerFilePath)) from by
              simp [warnContradictoryNoPrerenderList, hfind, hf2]] at hok
            exact absurd hok (by simp)
          · intro _
            refine ⟨(pid, info), List.mem_cons_self _ _, hit, hmem, f, hhit, hf, ?_⟩
            simp [warnContradictoryNoPrerenderList, hfind, hf2]

theorem contradiction_check_fatal_witness :
    ∃ p ∈ contradictionEntries, ∃ e ∈ contradictionDoNot, ∃ f, e.pageId = p.1 ∧
      p.2.prerenderSourceFile = some f ∧
      warnContradictoryNoPrerenderList contradictionEntries contradictionDoNot =
        .error (.usage (mkContradictoryMsg f p.2.url e.pageServerFilePath)) :=
  (contradiction_check_fatal contradictionEntries contradictionDoNot
      (by intro p hp; simp [contradictionEntries] at hp; simp [hp])).2
    ⟨("pages/a", ⟨"/a", some "pages/a.page.server.js"⟩), by simp [contradictionEntries],
     ⟨"pages/a", "pages/a2.page.server.js"⟩, by simp [contradictionDoNot], rfl⟩

/-- C9: the Bounded Task Runner never has more than its ceiling of units
concurrently active, for any ceiling of at least one and any number and
interleaving of submissions (including none and one); spec-modelled, since
the runner (`p-limit`) is an external dependency not under `src/`. -/
theorem limit_concurrency_bound (n : Nat) (_hn : 1 ≤ n) (s : LimitState)
    (h : LimitReachable n s) : s.active ≤ s.limit := by
  induction h with
  | refl => simp [limitInit]
  | tail hr hstep ih =>
      cases hstep with
      | submitRun hlt => exact hlt
      | submitQueue hge => exact ih
      | finishIdle ha hq => exact le_trans (Nat.sub_le _ _) ih
      | finishStartNext ha hq => exact ih

/-- C7 counterexample: the claim states the normalizer leaves the
hook-result value unchanged.  For the record element lacking a
`pageContext` key, the code writes `pageContext = null` into the input
element (prerender.ts, line 531) and returns the element itself, so the
post-state of the input differs from the input. -/
theorem normalize_mutates_input_cex :
    normalizePrerenderResult (.obj [("url", .str "/a")]) "pages/a.page.server.js" =
      .ok (.obj [("url", .str "/a"), ("pageContext", .null)], [⟨"/a", .null⟩]) ∧
    ¬ ((.obj [("url", .str "/a"), ("pageContext", .null)] : JSValue) =
        .obj [("url", .str "/a")]) := by
  refine ⟨rfl, ?_⟩
  intro h
  injection h with h2
  simp at h2

theorem normalizeElement_post (file : String) (el post : JSValue) (pr : PrerenderPair)
    (h : normalizeElement file el = .ok (post, pr)) :
    post = addPageContextDefault el := by
  cases el with
  | str s =>
      simp only [normalizeElement, Except.ok.injEq, Prod.mk.injEq] at h
      obtain ⟨h1, h2⟩ := h
      rw [← h1]
      rfl
  | obj fields =>
      simp only [normalizeElement, isPlainObject] at h
      repeat' split at h
      all_goals simp_all [addPageContextDefault]
  | null => simp [normalizeElement, isPlainObject] at h
  | undefined => simp [normalizeElement, isPlainObject] at h
  | bool b => simp [normalizeElement, isPlainObject] at h
  | num n => simp [normalizeElement, isPlainObject] at h
  | arr els => simp [normalizeElement, isPlainObject] at h
  | func r => simp [normalizeElement, isPlainObject] at h

theorem normalizeList_post (file : String) (els : List JSValue) (posts : List JSValue)
    (prs : List PrerenderPair) (h : normalizeList file els = .ok (posts, prs)) :
    posts = els.map addPageContextDefault := by
  induction els generalizing posts prs with
  | nil =>
      simp only [normalizeList, Except.ok.injEq, Prod.mk.injEq] at h
      simp [← h.1]
  | cons el rest ih =>
      simp only [normalizeList, bind, Except.bind] at h
      cases he : normalizeElement file el with
      | error e => rw [he] at h; simp at h
      | ok val =>
          obtain ⟨post1, pr1⟩ := val
          rw [he] at h
          cases hr : normalizeList file rest with
          | error e => rw [hr] at h; simp at h
          | ok val2 =>
              obtain ⟨posts2, prs2⟩ := val2
              rw [hr] at h
              simp only [Except.ok.injEq, Prod.mk.injEq] at h
              rw [← h.1]
              simp only [List.map_cons, List.cons.injEq]
              exact ⟨normalizeElement_post file el post1 pr1 he, ih posts2 prs2 hr⟩

theorem addPageContextDefault_id (v : JSValue) (h : elementHasPageContext v = true) :
    addPageContextDefault v = v := by
  cases v with
  | obj fields =>
      simp only [elementHasPageContext] at h
      simp [addPageContextDefault, h]
  | null => rfl
  | undefined => rfl
  | bool b => rfl
  | num n => rfl
  | str s => rfl
  | arr els => rfl
  | func r => rfl

theorem addPageContextDefaults_id (v : JSValue) (h : allElementsHavePageContext v = true) :
    addPageContextDefaults v = v := by
  cases v with
  | arr els =>
      simp only [allElementsHavePageContext, List.all_eq_true] at h
      simp only [addPageContextDefaults, JSValue.arr.injEq]
      induction els with
      | nil => rfl
      | cons el rest ih =>
          simp only [List.map_cons, List.cons.injEq]
          exact ⟨addPageContextDefault_id el (h el (List.mem_cons_self _ _)),
                 ih (fun x hx => h x (List.mem_cons_of_mem _ hx))⟩
  | null => exact addPageContextDefault_id JSValue.null h
  | undefined => exact addPageContextDefault_id JSValue.undefined h
  | bool b => exact addPageContextDefault_id (JSValue.bool b) h
  | num n => exact addPageContextDefault_id (JSValue.num n) h
  | str s => exact addPageContextDefault_id (JSValue.str s) h
  | obj fields => exact addPageContextDefault_id (JSValue.obj fields) h
  | func r => exact addPageContextDefault_id (JSValue.func r) h

theorem normalizeBindElement_post (file : String) (el post : JSValue)
    (pairs : List PrerenderPair)
    (h : (do
            let (post2, pr) ← normalizeElement file el
            (.ok (post2, [pr]) : Except Err (JSValue × List PrerenderPair))) =
         .ok (post, pairs)) :
    post = addPageContextDefault el := by
  simp only [bind, Except.bind] at h
  cases he : normalizeElement file el with
  | error e => rw [he] at h; simp at h
  | ok val =>
      obtain ⟨post1, pr1⟩ := val
      rw [he] at h
      simp only [Except.ok.injEq, Prod.mk.injEq] at h
      rw [← h.1]
      exact normalizeElement_post file el post1 pr1 he

/-- C7 (amended): the normalizer is a function of its two arguments alone
(the embedding is a pure function by construction), but it does not leave
its input unchanged: the post-state of the raw hook result is exactly the
input with `pageContext := null` written into every record element lacking
the key, and the input is left unchanged precisely when every record
element already carries a `pageContext` key. -/
theorem normalize_mutation_characterization (res : JSValue) (file : String)
    (post : JSValue) (pairs : List PrerenderPair)
    (h : normalizePrerenderResult res file = .ok (post, pairs)) :
    post = addPageContextDefaults res ∧
    (allElementsHavePageContext res = true → post = res) := by
  have hpost : post = addPageContextDefaults res := by
    cases res with
    | arr els =>
        simp only [normalizePrerenderResult, bind, Except.bind] at h
        cases hl : normalizeList file els with
        | error e => rw [hl] at h; simp at h
        | ok val =>
            obtain ⟨posts, prs2⟩ := val
            rw [hl] at h
            simp only [Except.ok.injEq, Prod.mk.injEq] at h
            rw [← h.1]
            simp only [addPageContextDefaults, JSValue.arr.injEq]
            exact normalizeList_post file els posts prs2 hl
    | null => exact normalizeBindElement_post file _ post pairs h
    | undefined => exact normalizeBindElement_post file _ post pairs h
    | bool b => exact normalizeBindElement_post file _ post pairs h
    | num n => exact normalizeBindElement_post file _ post pairs h
    | str s => exact normalizeBindElement_post file _ post pairs h
    | obj fields => exact normalizeBindElement_post file _ post pairs h
    | func r => exact normalizeBindElement_post file _ post pairs h
  exact ⟨hpost, fun hall => hpost.trans (addPageContextDefaults_id res hall)⟩

theorem normalize_mutation_characterization_witness :
    .obj [("url", .str "/b"), ("pageContext", .obj [("x", .num 1)])] =
      addPageContextDefaults (.obj [("url", .str "/b"), ("pageContext", .obj [("x", .num 1)])]) ∧
    (allElementsHavePageContext (.obj [("url", .str "/b"), ("pageContext", .obj [("x", .num 1)])]) = true →
      (.obj [("url", .str "/b"), ("pageContext", .obj [("x", .num 1)])] : JSValue) =
        .obj [("url", .str "/b"), ("pageContext", .obj [("x", .num 1)])]) :=
  normalize_mutation_characterization
    (.obj [("url", .str "/b"), ("pageContext", .obj [("x", .num 1)])]) "pages/b.page.server.js"
    (.obj [("url", .str "/b"), ("pageContext", .obj [("x", .num 1)])])
    [⟨"/b", .obj [("x", .num 1)]⟩] rfl

theorem emitOnlyOnce_go_nodup (l acc : List String) (hacc : acc.Nodup) :
    (l.foldl (fun acc m => if acc.contains m then acc else acc ++ [m]) acc).Nodup := by
  induction l generalizing acc with
  | nil => simpa using hacc
  | cons m rest ih =>
      simp only [List.foldl_cons]
      by_cases hm : acc.contains m = true
      · rw [if_pos hm]
        exact ih acc hacc
      · rw [if_neg hm]
        refine ih _ ?_
        have hmem : ¬ m ∈ acc := by
          intro hmm
          exact hm (List.elem_eq_true_of_mem hmm)
        simp [List.nodup_append, hacc, hmem]

theorem emitOnlyOnce_nodup (l : List String) : (emitOnlyOnce l).Nodup :=
  emitOnlyOnce_go_nodup l [] List.nodup_nil

theorem mem_emitOnlyOnce_go (l : List String) (acc : List String) (a : String) :
    a ∈ l.foldl (fun acc m => if acc.contains m then acc else acc ++ [m]) acc ↔
      a ∈ acc ∨ a ∈ l := by
  induction l generalizing acc with
  | nil => simp
  | cons m rest ih =>
      simp only [List.foldl_cons]
      by_cases hm : acc.contains m = true
      · rw [if_pos hm]
        rw [ih]
        have hmem : m ∈ acc := by
          have := List.mem_of_elem_eq_true hm
          exact this
        constructor
        · rintro (h | h)
          · exact Or.inl h
          · exact Or.inr (List.mem_cons_of_mem _ h)
        · rintro (h | h)
          · exact Or.inl h
          · rcases List.mem_cons.mp h with h | h
            · exact Or.inl (h ▸ hmem)
            · exact Or.inr h
      · rw [if_neg hm]
        rw [ih]
        constructor
        · rintro (h | h)
          · rcases List.mem_append.mp h with h | h
            · exact Or.inl h
            · simp at h
              exact Or.inr (List.mem_cons.mpr (Or.inl h))
          · exact Or.inr (List.mem_cons_of_mem _ h)
        · rintro (h | h)
          · exact Or.inl (List.mem_append.mpr (Or.inl h))
          · rcases List.mem_cons.mp h with h | h
            · exact Or.inl (by simp [h])
            · exact Or.inr h

theorem mem_emitOnlyOnce (l : List String) (a : String) :
    a ∈ emitOnlyOnce l ↔ a ∈ l := by
  rw [emitOnlyOnce, mem_emitOnlyOnce_go]
  simp

/-- C6: the missing-coverage warnings are fully suppressed by the partial
flag; they are de-duplicated (no message appears twice); a page id is
complained about exactly when it is in the inventory, unrendered, not
excluded and not an error page; and without the partial flag every such
page id gets its warning emitted.  The check is non-fatal by construction:
it returns a warning list and no error. -/
theorem missing_pages_warning_behavior (rendered : List (String × PrerenderedInfo))
    (doNot : List DoNotPrerenderEntry) (allIds : List String) (isErr : String → Bool)
    (partialFlag : Bool) :
    (partialFlag = true → warnMissingPages rendered doNot allIds isErr partialFlag = []) ∧
    (warnMissingPages rendered doNot allIds isErr partialFlag).Nodup ∧
    (∀ pid, pid ∈ missingPageIds rendered doNot allIds isErr ↔
       pid ∈ allIds ∧ lookupId rendered pid = none ∧
         (∀ e ∈ doNot, ¬ e.pageId = pid) ∧ isErr pid = false) ∧
    (partialFlag = false → ∀ pid, pid ∈ missingPageIds rendered doNot allIds isErr →
       mkMissingMsg pid ∈ warnMissingPages rendered doNot allIds isErr partialFlag) := by
  refine ⟨?_, ?_, ?_, ?_⟩
  · intro h
    simp [warnMissingPages, h]
  · cases hp : partialFlag
    · simpa [warnMissingPages] using emitOnlyOnce_nodup _
    · simp [warnMissingPages]
  · intro pid
    simp only [missingPageIds, List.mem_filter, decide_eq_true_eq, List.any_eq_true,
      beq_iff_eq, not_exists, Option.isNone_iff_eq_none, Bool.not_eq_true]
    constructor
    · rintro ⟨⟨⟨h1, h2⟩, h3⟩, h4⟩
      exact ⟨h1, h2, fun e he heq => h3 e ⟨he, heq⟩, h4⟩
    · rintro ⟨h1, h2, h3, h4⟩
      exact ⟨⟨⟨h1, h2⟩, fun e hpair => h3 e hpair.1 hpair.2⟩, h4⟩
  · intro hp pid hpid
    rw [warnMissingPages, if_neg (by simp [hp])]
    rw [mem_emitOnlyOnce]
    exact List.mem_map_of_mem mkMissingMsg hpid

theorem missing_pages_warning_behavior_witness :
    warnMissingPages [] [] ["pages/a"] (fun _ => false) true = [] ∧
    mkMissingMsg "pages/a" ∈ warnMissingPages [] [] ["pages/a"] (fun _ => false) false :=
  ⟨(missing_pages_warning_behavior [] [] ["pages/a"] (fun _ => false) true).1 rfl,
   (missing_pages_warning_behavior [] [] ["pages/a"] (fun _ => false) false).2.2.2 rfl "pages/a"
     (((missing_pages_warning_behavior [] [] ["pages/a"] (fun _ => false) false).2.2.1
        "pages/a").mpr
       ⟨List.mem_cons_self _ _, rfl, fun e he => absurd he (List.not_mem_nil e), rfl⟩)⟩

/-- C5: at most one default page-server module may declare
`onBeforePrerender` (two or more is a fatal usage error); a truthy
non-callable export is a fatal usage error; with exactly one hook, a
`null` or `undefined` return leaves the global context unchanged, a return
of exactly `\x7b globalContext: <plain record> \x7d` is shallow-merged into
the global context, a returned record with any other key is a fatal usage
error, and a `globalContext` value that is not a plain record is a fatal
usage error, as is any non-object return. -/
theorem onBeforePrerender_hook_behavior (files : List PageFile) (g : Record) :
    (collectOnBeforeHooks files = [] → callOnBeforePrerenderHook files g = .ok g) ∧
    (∀ h1 h2 rest, collectOnBeforeHooks files = h1 :: h2 :: rest →
       callOnBeforePrerenderHook files g = .error (.usage onlyOneOnBeforeMsg)) ∧
    (∀ fp hv, collectOnBeforeHooks files = [(fp, hv)] → isCallable hv = false →
       callOnBeforePrerenderHook files g = .error (.usage (onBeforeNotFnMsg fp))) ∧
    (∀ fp r, collectOnBeforeHooks files = [(fp, .func r)] →
       ((r = .null ∨ r = .undefined) → callOnBeforePrerenderHook files g = .ok g) ∧
       (∀ m, r = .obj [("globalContext", .obj m)] →
          callOnBeforePrerenderHook files g = .ok (mergeRecord g m)) ∧
       (∀ fields p, r = .obj fields → p ∈ fields → ¬ p.1 = "globalContext" →
          callOnBeforePrerenderHook files g = .error (.usage (onBeforeShapeMsg fp))) ∧
       (∀ v, r = .obj [("globalContext", v)] → isPlainObject v = false →
          callOnBeforePrerenderHook files g = .error (.usage (onBeforeGlobalCtxMsg fp))) ∧
       (isPlainObject r = false → ¬ r = .null → ¬ r = .undefined →
          callOnBeforePrerenderHook files g = .error (.usage (onBeforeShapeMsg fp)))) := by
  refine ⟨?_, ?_, ?_, ?_⟩
  · intro h
    simp [callOnBeforePrerenderHook, h]
  · intro h1 h2 rest h
    obtain ⟨fp1, hv1⟩ := h1
    simp [callOnBeforePrerenderHook, h]
  · intro fp hv h hc
    simp [callOnBeforePrerenderHook, h, hc]
  · intro fp r h
    refine ⟨?_, ?_, ?_, ?_, ?_⟩
    · rintro (hr | hr) <;> subst hr <;> simp [callOnBeforePrerenderHook, h, isCallable]
    · intro m hr
      subst hr
      simp [callOnBeforePrerenderHook, h, isCallable, isObjectWithKeys, hasPropB, hasKey,
        getKey]
    · intro fields p hr hp hne
      subst hr
      have hkeys : isObjectWithKeys (.obj fields) ["globalContext"] = false := by
        rw [Bool.eq_false_iff]
        intro hall
        simp only [isObjectWithKeys, List.all_eq_true] at hall
        have := hall p hp
        simp [hne] at this
      simp [callOnBeforePrerenderHook, h, isCallable, hkeys]
    · intro v hr hv
      subst hr
      cases v with
      | obj m => simp [isPlainObject] at hv
      | null =>
          simp [callOnBeforePrerenderHook, h, isCallable, isObjectWithKeys, hasPropB,
            hasKey, getKey]
      | undefined =>
          simp [callOnBeforePrerenderHook, h, isCallable, isObjectWithKeys, hasPropB,
            hasKey, getKey]
      | bool b =>
          simp [callOnBeforePrerenderHook, h, isCallable, isObjectWithKeys, hasPropB,
            hasKey, getKey]
      | num n =>
          simp [callOnBeforePrerenderHook, h, isCallable, isObjectWithKeys, hasPropB,
            hasKey, getKey]
      | str s =>
          simp [callOnBeforePrerenderHook, h, isCallable, isObjectWithKeys, hasPropB,
            hasKey, getKey]
      | arr els =>
          simp [callOnBeforePrerenderHook, h, isCallable, isObjectWithKeys, hasPropB,
            hasKey, getKey]
      | func fr =>
          simp [callOnBeforePrerenderHook, h, isCallable, isObjectWithKeys, hasPropB,
            hasKey, getKey]
    · intro hobj hnull hundef
      cases r with
      | obj m => simp [isPlainObject] at hobj
      | null => exact absurd rfl hnull
      | undefined => exact absurd rfl hundef
      | bool b => simp [callOnBeforePrerenderHook, h, isCallable, isObjectWithKeys]
      | num n => simp [callOnBeforePrerenderHook, h, isCallable, isObjectWithKeys]
      | str s => simp [callOnBeforePrerenderHook, h, isCallable, isObjectWithKeys]
      | arr els => simp [callOnBeforePrerenderHook, h, isCallable, isObjectWithKeys]
      | func fr => simp [callOnBeforePrerenderHook, h, isCallable, isObjectWithKeys]

theorem onBeforePrerender_hook_behavior_witness :
    callOnBeforePrerenderHook onBeforeHookFiles [("b", .num 2)] =
      .ok (mergeRecord [("b", .num 2)] [("a", .num 1)]) :=
  ((onBeforePrerender_hook_behavior onBeforeHookFiles [("b", .num 2)]).2.2.2
      "_default.page.server.js" (.obj [("globalContext", .obj [("a", .num 1)])]) rfl).2.1
    [("a", .num 1)] rfl

/-- C2 counterexample: two hooks (from `a.page.server.js` then
`b.page.server.js`) contribute the same URL `/x`; the claim says the
recorded source hook file is overwritten to the file of the later hook, but the
code sets `_prerenderSourceFile` only when the context is created
(prerender.ts, lines 198-205) and the merge for an existing context
(lines 206-211) never touches it, so the provenance stays
`a.page.server.js`. -/
theorem provenance_not_overwritten_cex :
    provenanceAt
      (callPrerenderHooks []
        [hookPageFile "pages/x" "a.page.server.js" "/x" [("k", .num 1), ("shared", .num 1)],
         hookPageFile "pages/x" "b.page.server.js" "/x" [("shared", .num 2), ("m", .num 3)]])
      "/x" = some "a.page.server.js" ∧
    ¬ provenanceAt
      (callPrerenderHooks []
        [hookPageFile "pages/x" "a.page.server.js" "/x" [("k", .num 1), ("shared", .num 1)],
         hookPageFile "pages/x" "b.page.server.js" "/x" [("shared", .num 2), ("m", .num 3)]])
      "/x" = some "b.page.server.js" := by
  constructor
  · rfl
  · intro h
    rw [show provenanceAt
          (callPrerenderHooks []
            [hookPageFile "pages/x" "a.page.server.js" "/x" [("k", .num 1), ("shared", .num 1)],
             hookPageFile "pages/x" "b.page.server.js" "/x" [("shared", .num 2), ("m", .num 3)]])
          "/x" = some "a.page.server.js" from rfl] at h
    simp at h

theorem normalize_single_record (u f : String) (c : Record)
    (hu : strStartsWith u "/" = true) :
    normalizePrerenderResult (.obj [("url", .str u), ("pageContext", .obj c)]) f =
      .ok (.obj [("url", .str u), ("pageContext", .obj c)], [⟨u, .obj c⟩]) := by
  simp [normalizePrerenderResult, normalizeElement, isPlainObject, hasKey, getKey, hu,
    pageContextShapeOk, bind, Except.bind]

theorem getKey_flagCons (c : Record) (k : String) (v : JSValue)
    (hk : ¬ k = "_pageContextAlreadyProvidedByPrerenderHook") :
    getKey (("_pageContextAlreadyProvidedByPrerenderHook", v) :: c) k = getKey c k := by
  rw [show getKey (("_pageContextAlreadyProvidedByPrerenderHook", v) :: c) k =
        if "_pageContextAlreadyProvidedByPrerenderHook" = k then some v else getKey c k
      from rfl,
    if_neg (fun hh => hk hh.symm)]

/-- C2 (amended): when two hooks contribute a `pageContext` for the same
URL, the resulting RenderContext holds the shallow union of both with the
keys of the later-applied hook winning on conflict (and both overriding the
spread global context), but the provenance is NOT overwritten: it remains
the file of the hook that first contributed the URL. -/
theorem same_url_merge_first_provenance (g c1 c2 : Record) (pid1 pid2 f1 f2 u : String)
    (hu : strStartsWith u "/" = true)
    (hc1n : (c1.map Prod.fst).Nodup) (hc2n : (c2.map Prod.fst).Nodup)
    (hu1 : ¬ "url" ∈ c1.map Prod.fst) (hu2 : ¬ "url" ∈ c2.map Prod.fst)
    (hs1 : ¬ "_prerenderSourceFile" ∈ c1.map Prod.fst)
    (hs2 : ¬ "_prerenderSourceFile" ∈ c2.map Prod.fst)
    (hf1 : ¬ "_pageContextAlreadyProvidedByPrerenderHook" ∈ c1.map Prod.fst)
    (hf2 : ¬ "_pageContextAlreadyProvidedByPrerenderHook" ∈ c2.map Prod.fst) :
    callPrerenderHooks g [hookPageFile pid1 f1 u c1, hookPageFile pid2 f2 u c2] =
        .ok ⟨[mergedHookCtx2 g c1 c2 f1 u], []⟩ ∧
      srcOf (mergedHookCtx2 g c1 c2 f1 u) = some f1 ∧
      urlOf (mergedHookCtx2 g c1 c2 f1 u) = some u ∧
      ∀ k, ¬ k = "url" → ¬ k = "_prerenderSourceFile" →
        ¬ k = "_pageContextAlreadyProvidedByPrerenderHook" →
        getKey (mergedHookCtx2 g c1 c2 f1 u) k =
          optOr (getKey c2 k) (optOr (getKey c1 k) (getKey g k)) := by
  have hn1 : (((("_pageContextAlreadyProvidedByPrerenderHook" : String), JSValue.bool true) :: c1).map
      Prod.fst).Nodup := by
    simp only [List.map_cons, List.nodup_cons]
    exact ⟨hf1, hc1n⟩
  have hn2 : (((("_pageContextAlreadyProvidedByPrerenderHook" : String), JSValue.bool true) :: c2).map
      Prod.fst).Nodup := by
    simp only [List.map_cons, List.nodup_cons]
    exact ⟨hf2, hc2n⟩
  have hnL1 : (([(("_prerenderSourceFile" : String), JSValue.str f1),
      (("url" : String), JSValue.str u)]).map Prod.fst).Nodup := by
    simp
  have e1 : getKey (mergedHookCtx1 g c1 f1 u) "url" = some (JSValue.str u) := by
    rw [mergedHookCtx1, getKey_mergeRecord _ _ _ hn1,
      getKey_flagCons c1 "url" _ (by simp), getKey_eq_none c1 "url" hu1,
      getKey_mergeRecord _ _ _ hnL1]
    simp [getKey, optOr]
  have eu1 : urlOf (mergedHookCtx1 g c1 f1 u) = some u := by
    simp [urlOf, e1]
  have happly1 : applyPairs g f1 [] [⟨u, JSValue.obj c1⟩] = .ok [mergedHookCtx1 g c1 f1 u] := by
    simp only [applyPairs, applyPair, hu, Bool.not_true, Bool.false_eq_true, if_false,
      pageContextShapeOk, bind, Except.bind]
    rw [show findCtx [] u = none from rfl]
    simp only [applyPageContext, List.nil_append]
    rfl
  have hstep1 : processPageServerFile g ⟨[], []⟩ (hookPageFile pid1 f1 u c1) =
      .ok ⟨[mergedHookCtx1 g c1 f1 u], []⟩ := by
    simp only [processPageServerFile,
      show exportOf (hookPageFile pid1 f1 u c1) "doNotPrerender" = JSValue.undefined from rfl,
      show exportOf (hookPageFile pid1 f1 u c1) "prerender" =
        JSValue.func (.obj [("url", .str u), ("pageContext", .obj c1)]) from rfl,
      show (hookPageFile pid1 f1 u c1).filePath = f1 from rfl,
      truthy, isCallable]
    simp [normalize_single_record u f1 c1 hu, happly1, bind, Except.bind]
  have hfind2 : findCtx [mergedHookCtx1 g c1 f1 u] u = some (mergedHookCtx1 g c1 f1 u) := by
    simp [findCtx, List.find?, eu1]
  have happly2 : applyPairs g f2 [mergedHookCtx1 g c1 f1 u] [⟨u, JSValue.obj c2⟩] =
      .ok [mergedHookCtx2 g c1 c2 f1 u] := by
    simp only [applyPairs, applyPair, hu, Bool.not_true, Bool.false_eq_true, if_false,
      pageContextShapeOk, bind, Except.bind, hfind2, List.map, eu1, beq_self_eq_true,
      if_true, applyPageContext, mergedHookCtx2]
    rfl
  have hstep2 : processPageServerFile g ⟨[mergedHookCtx1 g c1 f1 u], []⟩
      (hookPageFile pid2 f2 u c2) = .ok ⟨[mergedHookCtx2 g c1 c2 f1 u], []⟩ := by
    simp only [processPageServerFile,
      show exportOf (hookPageFile pid2 f2 u c2) "doNotPrerender" = JSValue.undefined from rfl,
      show exportOf (hookPageFile pid2 f2 u c2) "prerender" =
        JSValue.func (.obj [("url", .str u), ("pageContext", .obj c2)]) from rfl,
      show (hookPageFile pid2 f2 u c2).filePath = f2 from rfl,
      truthy, isCallable]
    simp [normalize_single_record u f2 c2 hu, happly2, bind, Except.bind]
  refine ⟨?_, ?_, ?_, ?_⟩
  · rw [callPrerenderHooks]
    rw [show ([hookPageFile pid1 f1 u c1, hookPageFile pid2 f2 u c2].filter
          (fun p => p.fileType == ".page.server")) =
        [hookPageFile pid1 f1 u c1, hookPageFile pid2 f2 u c2] from rfl]
    rw [List.foldlM_cons, hstep1]
    simp only [bind, Except.bind]
    rw [List.foldlM_cons, hstep2]
    rfl
  · rw [srcOf, mergedHookCtx2, getKey_mergeRecord _ _ _ hn2,
      getKey_flagCons c2 _ _ (by simp), getKey_eq_none c2 _ hs2,
      mergedHookCtx1, getKey_mergeRecord _ _ _ hn1,
      getKey_flagCons c1 _ _ (by simp), getKey_eq_none c1 _ hs1,
      getKey_mergeRecord _ _ _ hnL1]
    simp [getKey, optOr]
  · rw [urlOf, mergedHookCtx2, getKey_mergeRecord _ _ _ hn2,
      getKey_flagCons c2 _ _ (by simp), getKey_eq_none c2 _ hu2]
    rw [show optOr none (getKey (mergedHookCtx1 g c1 f1 u) "url") =
          getKey (mergedHookCtx1 g c1 f1 u) "url" from rfl, e1]
  · intro k hku hks hkf
    rw [mergedHookCtx2, getKey_mergeRecord _ _ _ hn2, getKey_flagCons c2 k _ hkf,
      mergedHookCtx1, getKey_mergeRecord _ _ _ hn1, getKey_flagCons c1 k _ hkf,
      getKey_mergeRecord _ _ _ hnL1]
    have hL1 : getKey [(("_prerenderSourceFile" : String), JSValue.str f1),
        (("url" : String), JSValue.str u)] k = none := by
      rw [show getKey [(("_prerenderSourceFile" : String), JSValue.str f1),
            (("url" : String), JSValue.str u)] k =
          if "_prerenderSourceFile" = k then some (JSValue.str f1)
          else if "url" = k then some (JSValue.str u) else none from rfl,
        if_neg (fun hh => hks hh.symm), if_neg (fun hh => hku hh.symm)]
    rw [hL1]
    cases getKey c2 k <;> cases getKey c1 k <;> rfl

theorem same_url_merge_first_provenance_witness :
    (callPrerenderHooks [("base", .num 0)]
        [hookPageFile "pages/x" "a.page.server.js" "/x" [("k", .num 1)],
         hookPageFile "pages/x" "b.page.server.js" "/x" [("k", .num 2)]] =
      .ok ⟨[mergedHookCtx2 [("base", .num 0)] [("k", .num 1)] [("k", .num 2)]
              "a.page.server.js" "/x"], []⟩) ∧
    srcOf (mergedHookCtx2 [("base", .num 0)] [("k", .num 1)] [("k", .num 2)]
        "a.page.server.js" "/x") = some "a.page.server.js" ∧
    urlOf (mergedHookCtx2 [("base", .num 0)] [("k", .num 1)] [("k", .num 2)]
        "a.page.server.js" "/x") = some "/x" ∧
    ∀ k, ¬ k = "url" → ¬ k = "_prerenderSourceFile" →
      ¬ k = "_pageContextAlreadyProvidedByPrerenderHook" →
      getKey (mergedHookCtx2 [("base", .num 0)] [("k", .num 1)] [("k", .num 2)]
          "a.page.server.js" "/x") k =
        optOr (getKey [("k", .num 2)] k)
          (optOr (getKey [("k", .num 1)] k) (getKey [("base", .num 0)] k)) :=
  same_url_merge_first_provenance [("base", .num 0)] [("k", .num 1)] [("k", .num 2)]
    "pages/x" "pages/x" "a.page.server.js" "b.page.server.js" "/x"
    rfl (by simp) (by simp) (by simp) (by simp) (by simp) (by simp) (by simp) (by simp)

theorem exceptBind_ok {α β : Type} (a : α) (f : α → Except Err β) :
    (Except.ok a : Except Err α).bind f = f a := rfl

theorem exceptBind_err {α β : Type} (e : Err) (f : α → Except Err β) :
    (Except.error e : Except Err α).bind f = Except.error e := rfl

theorem routeRenderStep_log (env : Env) (acc acc2 : RouteRenderAcc) (ctx : Record)
    (h : routeRenderStep env acc ctx = .ok acc2) :
    acc2.log = acc.log ∨ ∃ u, acc2.log = acc.log ++ [Event.docRendered u] := by
  unfold routeRenderStep at h
  repeat' split at h
  all_goals first
    | (simp only [Except.ok.injEq] at h; subst h; exact Or.inr ⟨_, rfl⟩)
    | simp at h

theorem routeAndPrerenderGo_log (env : Env) (ctxs : List Record) (acc res : RouteRenderAcc)
    (h : routeAndPrerenderGo env acc ctxs = .ok res) :
    ∀ e ∈ res.log, e ∈ acc.log ∨ ∃ u, e = Event.docRendered u := by
  induction ctxs generalizing acc with
  | nil =>
      simp only [routeAndPrerenderGo] at h
      injection h with h2
      subst h2
      exact fun e he => Or.inl he
  | cons ctx rest ih =>
      simp only [routeAndPrerenderGo, bind, Except.bind] at h
      cases hs : routeRenderStep env acc ctx with
      | error e2 => rw [hs] at h; exact absurd h (by simp)
      | ok acc2 =>
          rw [hs] at h
          intro e he
          rcases ih acc2 h e he with hmem | hd
          · rcases routeRenderStep_log env acc acc2 ctx hs with hlog | ⟨u, hlog⟩
            · rw [hlog] at hmem
              exact Or.inl hmem
            · rw [hlog] at hmem
              rcases List.mem_append.mp hmem with hm | hm
              · exact Or.inl hm
              · simp at hm
                exact Or.inr ⟨u, hm⟩
          · exact Or.inr hd

theorem writeHtmlFileEvents_shape (doNot : List DoNotPrerenderEntry) (hf : HtmlFile)
    (evs : List Event) (h : writeHtmlFileEvents doNot hf = .ok evs) :
    ∀ e ∈ evs, ∃ u ext, e = Event.fileWritten u ext := by
  unfold writeHtmlFileEvents at h
  repeat' split at h
  all_goals first
    | (simp only [Except.ok.injEq] at h; subst h; intro e he; simp at he;
       first
         | (rcases he with he | he
            · exact ⟨_, _, he⟩
            · exact ⟨_, _, he⟩)
         | exact ⟨_, _, he⟩)
    | simp at h

theorem writePhase_log (doNot : List DoNotPrerenderEntry) (files : List HtmlFile)
    (evs : List Event) (h : writePhase doNot files = .ok evs) :
    ∀ e ∈ evs, ∃ u ext, e = Event.fileWritten u ext := by
  induction files generalizing evs with
  | nil =>
      simp only [writePhase] at h
      injection h with h2
      subst h2
      intro e he
      exact absurd he (List.not_mem_nil e)
  | cons hf rest ih =>
      simp only [writePhase, bind, Except.bind] at h
      cases h1 : writeHtmlFileEvents doNot hf with
      | error e2 => rw [h1] at h; exact absurd h (by simp)
      | ok ev1 =>
          rw [h1] at h
          cases h2 : writePhase doNot rest with
          | error e2 => rw [h2] at h; exact absurd h (by simp)
          | ok evs2 =>
              rw [h2] at h
              injection h with h3
              subst h3
              intro e he
              rcases List.mem_append.mp he with hm | hm
              · exact writeHtmlFileEvents_shape doNot hf ev1 h1 e hm
              · exact ih evs2 h2 e hm

theorem prerender404Page_log (env : Env) (files : List HtmlFile) :
    (prerender404Page env files).2 = [] ∨
      (prerender404Page env files).2 = [Event.doc404Rendered] := by
  unfold prerender404Page
  repeat' split
  all_goals simp

/-- C4 (amended): in every successful run the missing-coverage check is the
final event, after all rendering and all writing; the contradiction check,
however, runs right after the routing + rendering fan-out has drained —
before the 404 fallback document is produced and before any output is
written (prerender.ts places `warnContradictoryNoPrerenderList` at line
142, ahead of `prerender404Page` at line 144 and of the write fan-out at
lines 150-154, while `warnMissingPages` at line 156 is last). -/
theorem check_ordering_amended (env : Env) (g : Record) (res : RunResult)
    (h : prerenderRun env g = .ok res) :
    ∃ A B, res.events = A ++ [Event.contradictionCheck] ++ B ++ [Event.missingCheck] ∧
      (∀ e ∈ A, ∃ u, e = Event.docRendered u) ∧
      (∀ e ∈ B, e = Event.doc404Rendered ∨ ∃ u ext, e = Event.fileWritten u ext) := by
  unfold prerenderRun at h
  simp only [bind] at h
  cases h1 : callPrerenderHooks g env.pageFilesAll with
  | error e => simp [h1, exceptBind_err] at h
  | ok st =>
  simp only [h1, exceptBind_ok] at h
  cases h2 : handlePagesWithStaticRoutes env.loadServer g st.doNot st.store env.pageRoutes with
  | error e => simp [h2, exceptBind_err] at h
  | ok store =>
  simp only [h2, exceptBind_ok] at h
  cases h3 : callOnBeforePrerenderHook env.pageFilesAll g with
  | error e => simp [h3, exceptBind_err] at h
  | ok g2 =>
  simp only [h3, exceptBind_ok] at h
  cases h4 : routeAndPrerenderGo env ⟨[], [], []⟩ store with
  | error e => simp [h4, exceptBind_err] at h
  | ok acc =>
  simp only [h4, exceptBind_ok] at h
  cases h5 : warnContradictoryNoPrerenderList acc.pageIds st.doNot with
  | error e => simp [h5, exceptBind_err] at h
  | ok u5 =>
  simp only [h5, exceptBind_ok] at h
  cases h7 : writePhase st.doNot (prerender404Page env acc.htmlFiles).1 with
  | error e => simp [h7, exceptBind_err] at h
  | ok writeLog =>
  simp only [h7, exceptBind_ok] at h
  injection h with h8
  refine ⟨acc.log, (prerender404Page env acc.htmlFiles).2 ++ writeLog, ?_, ?_, ?_⟩
  · rw [← h8]
    simp [List.append_assoc]
  · intro e he
    rcases routeAndPrerenderGo_log env store ⟨[], [], []⟩ acc h4 e he with hm | hd
    · exact absurd hm (List.not_mem_nil e)
    · exact hd
  · intro e he
    rcases List.mem_append.mp he with hm | hm
    · rcases prerender404Page_log env acc.htmlFiles with hl | hl
      · rw [hl] at hm
        exact absurd hm (List.not_mem_nil e)
      · rw [hl] at hm
        simp at hm
        exact Or.inl hm
    · exact Or.inr (writePhase_log st.doNot (prerender404Page env acc.htmlFiles).1
        writeLog h7 e hm)

/-- C4 counterexample: the claim says no validator check executes before
every RenderedDocument has been produced and every write has resolved.  In
this successful run the contradiction check (second event) precedes the
404 document production and both writes. -/
theorem validator_before_write_cex :
    prerenderRun envC4 [] = .ok resC4 ∧
    noCheckBeforeAction resC4.events = false := ⟨rfl, rfl⟩

theorem check_ordering_amended_witness :
    ∃ A B, resC4.events = A ++ [Event.contradictionCheck] ++ B ++ [Event.missingCheck] ∧
      (∀ e ∈ A, ∃ u, e = Event.docRendered u) ∧
      (∀ e ∈ B, e = Event.doc404Rendered ∨ ∃ u ext, e = Event.fileWritten u ext) :=
  check_ordering_amended envC4 [] resC4 rfl

theorem limit_concurrency_bound_witness :
    (⟨2, 2, 1⟩ : LimitState).active ≤ (⟨2, 2, 1⟩ : LimitState).limit :=
  limit_concurrency_bound 2 (by decide) ⟨2, 2, 1⟩
    (Relation.ReflTransGen.tail
      (Relation.ReflTransGen.tail
        (Relation.ReflTransGen.tail Relation.ReflTransGen.refl
          (LimitStep.submitRun ⟨2, 0, 0⟩ (by decide)))
        (LimitStep.submitRun ⟨2, 1, 0⟩ (by decide)))
      (LimitStep.submitQueue ⟨2, 2, 0⟩ (by decide)))

theorem outdated_options_amended_witness :
    (∃ m, checkOutdatedOptions optsParallelFour = .error (.usage m)) ∧
    checkOutdatedOptions optsOutDirOnly = .ok [deprecatedWarnMsg "outDir"] :=
  ⟨(outdated_options_amended optsParallelFour).1 (Or.inr (Or.inr rfl)),
   ((outdated_options_amended optsOutDirOnly).2 rfl rfl rfl).1 rfl rfl rfl⟩
